import Mathlib

/-!
Verification of the caplog capture pipeline against its specification.

The Go sources are shallowly embedded: byte strings become `List Nat`
(each element a byte value), Go maps become association lists where the
most recent insertion shadows older ones, `uint64` counters become `Nat`
with explicit reduction modulo `2^64`, and the one loop in the source
that is not structurally recursive (the CNAME alias walk in
`reverseDNSMap.add`) is embedded with explicit fuel, returning `none`
exactly when the source loop would not have terminated within the bound
that any terminating run must satisfy.
-/

namespace Caplog

/-! ## IP addresses as byte lists (Go `net.IP`) -/

/-- A Go `net.IP`: a byte slice, possibly nil (empty). -/
abbrev IP := List Nat

/-- Go `isZeros`: every byte of the slice is zero. -/
def isZeros (ip : IP) : Bool := ip.all (· = 0)

/-- Go `net.IP.To4`: a 4-byte address is returned as-is; a 16-byte
IPv4-mapped address (ten zero bytes then 0xff 0xff) is shortened to its
last four bytes; anything else yields nil (here `none`). -/
def to4 (ip : IP) : Option IP :=
  if ip.length = 4 then some ip
  else if ip.length = 16 && isZeros (ip.take 10) && ip.get? 10 = some 255 && ip.get? 11 = some 255 then
    some (ip.drop 12)
  else none

/-- Two lowercase hex digits of one byte (Go `hexString` body). -/
def byteHex (b : Nat) : String :=
  let digit := fun (n : Nat) => String.singleton (Nat.digitChar n)
  digit (b / 16 % 16) ++ digit (b % 16)

/-- Go `hexString`: each byte as two lowercase hex digits. -/
def hexString (ip : IP) : String := String.join (ip.map byteHex)

/-- Lowercase hex of a 16-bit group without leading zeros (Go `appendHex`). -/
def groupHex (n : Nat) : String := String.mk (Nat.toDigits 16 n)

/-- The eight 16-bit groups of a 16-byte IPv6 address. -/
def v6Groups (ip : IP) : List Nat :=
  (List.range 8).map fun i => ip.getD (2 * i) 0 * 256 + ip.getD (2 * i + 1) 0

/-- Length of the zero run starting at group index `i`. -/
def zeroRunFrom (gs : List Nat) (i : Nat) : Nat :=
  ((gs.drop i).takeWhile (· = 0)).length

/-- Go `net.IP.String` zero-run scan: the earliest longest run of at
least two consecutive zero groups, as `(start, length)`; `none` when no
run of length ≥ 2 exists. -/
def bestZeroRun (gs : List Nat) : Option (Nat × Nat) :=
  let runs := (List.range gs.length).map fun i => (i, zeroRunFrom gs i)
  let best := runs.foldl (fun acc r => if r.2 > acc.2 then r else acc) (0, 0)
  if best.2 ≥ 2 then some best else none

/-- Render the groups with `::` compression over the chosen run. -/
def v6Render (gs : List Nat) : String :=
  match bestZeroRun gs with
  | none => String.intercalate ":" (gs.map groupHex)
  | some (e0, len) =>
      let before := String.intercalate ":" ((gs.take e0).map groupHex)
      let after := String.intercalate ":" ((gs.drop (e0 + len)).map groupHex)
      before ++ "::" ++ after

/-- Go `net.IP.String`: nil prints `<nil>`; a (possibly mapped) IPv4
address prints as dotted decimal; a 16-byte address prints as
colon-separated lowercase hex groups with the longest zero run
compressed to `::`; other lengths print `?` followed by hex bytes. -/
def netIPString (ip : IP) : String :=
  if ip.length = 0 then "<nil>"
  else match to4 ip with
  | some p4 =>
      String.intercalate "." (p4.map (fun b => toString b))
  | none =>
      if ip.length = 16 then v6Render (v6Groups ip)
      else "?" ++ hexString ip

/-! ## Endpoints (gopacket `Endpoint`, `layers.NewIPEndpoint`) -/

/-- gopacket endpoint families used by the pipeline. -/
inductive EPType where
  | invalid
  | v4
  | v6
deriving DecidableEq, Repr

/-- gopacket `Endpoint`: a family tag and the raw bytes. -/
structure Endpoint where
  typ : EPType
  raw : IP
deriving DecidableEq, Repr

/-- gopacket `layers.NewIPEndpoint`: canonicalize through `To4`, then
classify by length; lengths other than 4 and 16 give the invalid
endpoint. -/
def mkIPEndpoint (a : IP) : Endpoint :=
  let addr := (to4 a).getD a
  if addr.length = 4 then ⟨.v4, addr⟩
  else if addr.length = 16 then ⟨.v6, addr⟩
  else ⟨.invalid, []⟩

/-- gopacket `Endpoint.String` for IP endpoints: format the raw bytes as
a `net.IP` string. -/
def endpointString (e : Endpoint) : String := netIPString e.raw

/-! ## DNS answers (gopacket `layers.DNS`, restricted to what `add` reads) -/

/-- gopacket `layers.DNSType`, restricted to the types `add` inspects. -/
inductive DNSType where
  | A
  | AAAA
  | CNAME
  | other
deriving DecidableEq, Repr

/-- gopacket `layers.DNSClass`: class IN or anything else. -/
inductive DNSClass where
  | IN
  | other
deriving DecidableEq, Repr

/-- One DNS answer resource record, with the fields `add` reads. -/
structure DNSRecord where
  rname : List Nat  -- `Name` bytes; compared as strings after conversion
  rtype : DNSType
  rclass : DNSClass
  ip : IP
  cname : List Nat
deriving DecidableEq, Repr

/-- Go `string(bytes)`: we keep name bytes abstract and use them as map
keys directly; `recordName` is the identity rendering used for keys. -/
def bytesKey (bs : List Nat) : List Nat := bs

/-! ## Association lists standing for Go maps

Insertion removes any previous binding of the key and prepends the new
one, so lookups see the latest write and iteration visits each key
once, like a Go map. -/

/-- Go map assignment `m[k] = v`. -/
def mapInsert {α β : Type} [DecidableEq α] (k : α) (v : β)
    (m : List (α × β)) : List (α × β) :=
  (k, v) :: m.filter (fun p => p.1 ≠ k)

/-- Go map read with ok flag: `v, ok := m[k]`. -/
def mapLookup {α β : Type} [DecidableEq α] (k : α)
    (m : List (α × β)) : Option β :=
  (m.find? (fun p => p.1 = k)).map (·.2)

/-! ## The reverse-DNS map (`revdns.go`) -/

/-- The `rm` field of `reverseDNSMap`: endpoint to comma-joined name chain. -/
abbrev RevMap := List (Endpoint × String)

/-- `newReverseDNSMap`: the empty map. -/
def newReverseDNSMap : RevMap := []

/-- `reverseDNSMap.name`: the most recently learned name for the
endpoint, or its formatted address when unknown. -/
def revName (r : RevMap) (e : Endpoint) : String :=
  (mapLookup e r).getD (endpointString e)

/-- `reverseDNSMap.names`: `name` on both endpoints of a flow. -/
def revNames (r : RevMap) (src dst : Endpoint) : String × String :=
  (revName r src, revName r dst)

/-- One record's contribution to the `cnames` bucket of `add`:
`cnames[string(a.CNAME)] = string(a.Name)` for IN CNAME records. -/
def cnStep (m : List (List Nat × List Nat)) (a : DNSRecord) : List (List Nat × List Nat) :=
  if a.rclass = DNSClass.IN ∧ a.rtype = DNSType.CNAME then
    mapInsert a.cname a.rname m
  else m

/-- The `cnames` bucket built by `add` over the answer section. -/
def buildCnames (answers : List DNSRecord) : List (List Nat × List Nat) :=
  answers.foldl cnStep []

/-- One record's contribution to the `ips` bucket of `add`:
`ips[NewIPEndpoint(a.IP)] = string(a.Name)` for IN A/AAAA records. -/
def ipsStep (m : List (Endpoint × List Nat)) (a : DNSRecord) : List (Endpoint × List Nat) :=
  if a.rclass = DNSClass.IN ∧ (a.rtype = DNSType.A ∨ a.rtype = DNSType.AAAA) then
    mapInsert (mkIPEndpoint a.ip) a.rname m
  else m

/-- The `ips` bucket built by `add` over the answer section. -/
def buildIps (answers : List DNSRecord) : List (Endpoint × List Nat) :=
  answers.foldl ipsStep []

/-- The alias walk inside `add`, with explicit fuel:
`for ok := true; ok; n, ok = cnames[n] { names = append(names, n) }`.
Returns the appended names, or `none` when the loop has not finished
within `fuel` appends. -/
def walkCNAMEs (cnames : List (List Nat × List Nat)) :
    Nat → List Nat → Option (List (List Nat))
  | 0, _ => none
  | fuel + 1, n =>
    match mapLookup n cnames with
    | none => some [n]
    | some n' => (walkCNAMEs cnames fuel n').map (n :: ·)

/-- Render a list of name byte-strings as Go `strings.Join(names, ",")`
applied to `string(...)` conversions; bytes are rendered one character
per byte as Go does for ASCII names. -/
def joinNames (names : List (List Nat)) : String :=
  String.intercalate "," (names.map fun bs => String.mk (bs.map Char.ofNat))

/-- The per-address body of `add`: walk the CNAME bucket from the
terminal name and store the joined chain. A terminating walk appends at
most `cnames.length + 1` names (each successful lookup consumes a
distinct key), so fuel `cnames.length + 1` returns `some` exactly when
the source loop terminates; `none` means the source would spin
forever. -/
def addStep (cnames : List (List Nat × List Nat)) (acc : Option RevMap)
    (p : Endpoint × List Nat) : Option RevMap :=
  match acc with
  | none => none
  | some m =>
    match walkCNAMEs cnames (cnames.length + 1) p.2 with
    | none => none
    | some names => some (mapInsert p.1 (joinNames names) m)

/-- `reverseDNSMap.add`, assembled: build both buckets, then store one
joined chain per learned address. -/
def revAdd (answers : List DNSRecord) (r : RevMap) : Option RevMap :=
  (buildIps answers).foldl (addStep (buildCnames answers)) (some r)

/-! ## Local-address classification (`classify.go`) -/

/-- Go `net.IPNet`: a network number and a mask, both byte slices. -/
structure IPNet where
  netIP : IP
  mask : IP
deriving DecidableEq, Repr

/-- Go `networkNumberAndMask`: canonicalize the network number through
`To4`; a 16-byte mask on a 4-byte network keeps only its last 4 bytes;
mismatched or foreign lengths yield `(nil, nil)`. -/
def networkNumberAndMask (n : IPNet) : IP × IP :=
  let ip :=
    match to4 n.netIP with
    | some ip4 => ip4
    | none => if n.netIP.length = 16 then n.netIP else []
  if ip.isEmpty then ([], [])
  else if n.mask.length = 4 then
    if ip.length ≠ 4 then ([], []) else (ip, n.mask)
  else if n.mask.length = 16 then
    if ip.length = 4 then (ip, n.mask.drop 12) else (ip, n.mask)
  else ([], [])

/-- Go `net.IPNet.Contains`: canonicalize the query through `To4`,
require matching lengths, then compare masked bytes. -/
def contains (n : IPNet) (ip : IP) : Bool :=
  let nm := networkNumberAndMask n
  let q := (to4 ip).getD ip
  if q.length ≠ nm.1.length then false
  else (List.range q.length).all fun i =>
    nm.1.getD i 0 &&& nm.2.getD i 0 == q.getD i 0 &&& nm.2.getD i 0

/-- `stdLocalNets`: the hard-wired private / link-local / broadcast
ranges, as the `net.IPNet` values `MustParseCIDR` produces. -/
def stdLocalNets : List IPNet :=
  [ ⟨[10, 0, 0, 0], [255, 0, 0, 0]⟩,        -- 10.0.0.0/8
    ⟨[172, 16, 0, 0], [255, 240, 0, 0]⟩,    -- 172.16.0.0/12
    ⟨[192, 168, 0, 0], [255, 255, 0, 0]⟩,   -- 192.168.0.0/16
    ⟨[253, 0, 0, 0, 0, 0, 0, 0, 0, 0, 0, 0, 0, 0, 0, 0],
     [255, 0, 0, 0, 0, 0, 0, 0, 0, 0, 0, 0, 0, 0, 0, 0]⟩,            -- fd00::/8
    ⟨[169, 254, 0, 0], [255, 255, 0, 0]⟩,   -- 169.254.0.0/16
    ⟨[254, 128, 0, 0, 0, 0, 0, 0, 0, 0, 0, 0, 0, 0, 0, 0],
     [255, 192, 0, 0, 0, 0, 0, 0, 0, 0, 0, 0, 0, 0, 0, 0]⟩,          -- fe80::/10
    ⟨[0, 0, 0, 0], [255, 255, 255, 255]⟩,   -- 0.0.0.0/32
    ⟨[255, 255, 255, 255], [255, 255, 255, 255]⟩ ]  -- 255.255.255.255/32

/-- `IsLocal`: true when the operator-declared `LocalNetblock` (if set)
contains the IP, or any hard-wired range does. The global variable
becomes the explicit argument `extra`. -/
def IsLocal (extra : Option IPNet) (ip : IP) : Bool :=
  (match extra with
   | some n => contains n ip
   | none => false)
  || stdLocalNets.any (fun n => contains n ip)

/-! ## Aggregation (`accounting.go`) -/

/-- `2^64`, the wrap-around modulus of Go `uint64` arithmetic. -/
def W64 : Nat := 2 ^ 64

/-- `Aggregation`: a byte counter and a packet counter. -/
structure Aggregation where
  bytes : Nat
  packets : Nat
deriving DecidableEq, Repr

/-- `Aggregation.Add`: atomically add `bytes` bytes and one packet,
with `uint64` wrap-around. -/
def aggAdd (a : Aggregation) (bytes : Nat) : Aggregation :=
  ⟨(a.bytes + bytes) % W64, (a.packets + 1) % W64⟩

/-- `Values`: the flow statistics counters (the `Now` timestamp is
stamped only at snapshot time and carries no information here). -/
structure Values where
  up : Aggregation
  down : Aggregation
  internal : Aggregation
  external : Aggregation
  total : Aggregation
  v4 : Aggregation
  v6 : Aggregation
deriving DecidableEq, Repr

/-- The zero state of the counters. -/
def zeroValues : Values := ⟨⟨0, 0⟩, ⟨0, 0⟩, ⟨0, 0⟩, ⟨0, 0⟩, ⟨0, 0⟩, ⟨0, 0⟩, ⟨0, 0⟩⟩

/-- `packets.Metadata`: per-frame record handed to the aggregator and
the batch. Timestamps are UNIX nanoseconds. -/
structure Metadata where
  timestamp : Nat
  size : Nat
  srcName : String
  dstName : String
  srcIP : IP
  dstIP : IP
  srcPort : Nat
  dstPort : Nat
  v6 : Bool
deriving DecidableEq, Repr

/-- The zero `Metadata` value (Go zero value of the struct). -/
def emptyMetadata : Metadata := ⟨0, 0, "", "", [], [], 0, 0, false⟩

/-- `dashboard.AddPacket`: always bump `Total`; classify by locality of
the two IPs into exactly one of Internal / Up / Down / External; when
the flow is not internal, additionally bump `V4` or `V6` by the v6
flag. The dashboard's `LocalNetblock` global becomes `extra`. -/
def AddPacket (extra : Option IPNet) (v : Values) (m : Metadata) : Values :=
  let v := { v with total := aggAdd v.total m.size }
  let srcPrivate := IsLocal extra m.srcIP
  let dstPrivate := IsLocal extra m.dstIP
  let v :=
    if srcPrivate && dstPrivate then { v with internal := aggAdd v.internal m.size }
    else if srcPrivate then { v with up := aggAdd v.up m.size }
    else if dstPrivate then { v with down := aggAdd v.down m.size }
    else { v with external := aggAdd v.external m.size }
  if !(srcPrivate && dstPrivate) then
    if m.v6 then { v with v6 := aggAdd v.v6 m.size }
    else { v with v4 := aggAdd v.v4 m.size }
  else v

/-! ## The decoder worker loop body (`packets.go`, `Capture.processor`) -/

/-- One decoded layer of a frame, as `DecodeLayers` reports it: the
entries of `decoded`, each carrying the fields of the corresponding
layer variable that the loop body reads. -/
inductive Layer where
  | eth
  | ipv4 (src dst : IP)
  | ipv6 (src dst : IP)
  | tcp (srcPort dstPort : Nat)
  | udp (srcPort dstPort : Nat)
  | dns (answers : List DNSRecord)
  | payload
deriving DecidableEq, Repr

/-- `ip4.NetworkFlow()` / `ip6.NetworkFlow()` endpoints: raw layer
bytes under the layer's family tag, no canonicalization. -/
def flowEndpoint (t : EPType) (ip : IP) : Endpoint := ⟨t, ip⟩

/-- The switch body of `Capture.processor` for one decoded layer:
updates the packet's `Metadata` and, on a DNS layer, the reverse-DNS
map. `none` propagates a non-terminating `add`. -/
def processLayer (st : Metadata × RevMap) (l : Layer) : Option (Metadata × RevMap) :=
  let (b, r) := st
  match l with
  | .ipv6 src dst =>
      let (sn, dn) := revNames r (flowEndpoint .v6 src) (flowEndpoint .v6 dst)
      some ({ b with srcIP := src, dstIP := dst, srcName := sn, dstName := dn, v6 := true }, r)
  | .ipv4 src dst =>
      let (sn, dn) := revNames r (flowEndpoint .v4 src) (flowEndpoint .v4 dst)
      some ({ b with srcIP := src, dstIP := dst, srcName := sn, dstName := dn }, r)
  | .tcp sp dp => some ({ b with srcPort := sp, dstPort := dp }, r)
  | .udp sp dp => some ({ b with srcPort := sp, dstPort := dp }, r)
  | .dns answers => (revAdd answers r).map (fun r' => (b, r'))
  | .eth => some st
  | .payload => some st

/-- The per-frame body of `Capture.processor`: build the `Metadata`
record from the capture timestamp and length, then fold the decoded
layers in order. Returns the emitted record and the updated map. -/
def processPacket (r : RevMap) (timestamp size : Nat) (decoded : List Layer) :
    Option (Metadata × RevMap) :=
  decoded.foldlM processLayer ({ emptyMetadata with timestamp := timestamp, size := size }, r)

/-! ## Buffer ring (`Capture.nextBuffer` / `logBuffer`) -/

/-- `maxBuffers`: capacity of the buffer ring channel. -/
def maxBuffers : Nat := 100

/-- A batch buffer: its contents and its allocated capacity. -/
structure Buf where
  data : List Metadata
  cap : Nat
deriving DecidableEq, Repr

/-- The buffer ring: the channel contents, front = next to be received. -/
abbrev BufferRing := List Buf

/-- `Capture.nextBuffer`: non-blocking receive from the ring, else
allocate a fresh buffer with length 0 and the configured capacity. -/
def nextBuffer (bufferSize : Nat) (ring : BufferRing) : Buf × BufferRing :=
  match ring with
  | [] => (⟨[], bufferSize⟩, [])
  | b :: rest => (b, rest)

/-- The release half of `Capture.logBuffer`: after `c.Log(b)` returns,
non-blocking send of `b[:0]` (the buffer truncated to length 0) into
the ring; a full ring drops the buffer. -/
def releaseBuffer (ring : BufferRing) (b : Buf) : BufferRing :=
  if ring.length < maxBuffers then ring ++ [⟨[], b.cap⟩] else ring

/-- An environment action against the buffer ring. -/
inductive PoolOp where
  | acquire
  | release (b : Buf)
deriving DecidableEq, Repr

/-- Run a sequence of acquires and releases from a ring state,
collecting every buffer an acquire returned. -/
def runPool (bufferSize : Nat) : List PoolOp → BufferRing → BufferRing × List Buf
  | [], ring => (ring, [])
  | PoolOp.acquire :: ops, ring =>
      let (b, ring') := nextBuffer bufferSize ring
      let (final, acqs) := runPool bufferSize ops ring'
      (final, b :: acqs)
  | PoolOp.release b :: ops, ring =>
      runPool bufferSize ops (releaseBuffer ring b)

/-! ## Sink writer (`main.go`, `influxEndpoint.writePackets`) -/

/-- `influxRetryLimit`. -/
def influxRetryLimit : Nat := 5

/-- What one `http.Post` attempt produced: a transport error, or an
HTTP response with some status (any status, 2xx or not). -/
inductive PostResult where
  | transportError
  | response (status : Nat)
deriving DecidableEq, Repr

/-- The observable behaviour of one `writePackets` call: how many POST
attempts were made, the waits taken after failed attempts (in
nanoseconds), and the status logged if a response arrived. -/
structure WriteTrace where
  attempts : Nat
  waits : List Nat
  logged : Option Nat
deriving DecidableEq, Repr

/-- 100 ms in nanoseconds: the initial `waitBase`. -/
def waitBase0 : Nat := 100 * 1000000

/-- The retry loop of `writePackets`. `net i` is what the i-th POST
returned; `jit i` is the value `rand.Int63n(waitBase)` returned before
the i-th backoff (always `< waitBase` by the contract of `Int63n`). -/
def writeAttempts (net : Nat → PostResult) (jit : Nat → Nat) :
    Nat → Nat → Nat → WriteTrace
  | 0, _, _ => ⟨0, [], none⟩
  | fuel + 1, i, base =>
    match net i with
    | .response s => ⟨1, [], some s⟩
    | .transportError =>
        let rest := writeAttempts net jit fuel (i + 1) (base * 2)
        ⟨rest.attempts + 1, (base + jit i) :: rest.waits, rest.logged⟩

/-- `influxEndpoint.writePackets`: empty batches make no attempt;
otherwise run the bounded retry loop from attempt 0 with a 100 ms
base. -/
def writePackets (net : Nat → PostResult) (jit : Nat → Nat)
    (data : List Metadata) : WriteTrace :=
  if data.length = 0 then ⟨0, [], none⟩
  else writeAttempts net jit influxRetryLimit 0 waitBase0

/-! ## Aggregator invariants (C4, C5) -/

/-- One `AddPacket` step preserves the grand-total equation. -/
theorem addPacket_total_inv (extra : Option IPNet) (v : Values) (m : Metadata)
    (hb : v.total.bytes = (v.up.bytes + v.down.bytes + v.internal.bytes + v.external.bytes) % W64)
    (hp : v.total.packets = (v.up.packets + v.down.packets + v.internal.packets + v.external.packets) % W64) :
    (AddPacket extra v m).total.bytes =
      ((AddPacket extra v m).up.bytes + (AddPacket extra v m).down.bytes +
       (AddPacket extra v m).internal.bytes + (AddPacket extra v m).external.bytes) % W64 ∧
    (AddPacket extra v m).total.packets =
      ((AddPacket extra v m).up.packets + (AddPacket extra v m).down.packets +
       (AddPacket extra v m).internal.packets + (AddPacket extra v m).external.packets) % W64 := by
  unfold AddPacket aggAdd
  have hW : 0 < W64 := by norm_num [W64]
  cases hs : IsLocal extra m.srcIP <;> cases hd : IsLocal extra m.dstIP <;>
    cases h6 : m.v6 <;>
    simp only [Bool.true_and, Bool.false_and, Bool.and_self, Bool.not_true, Bool.not_false,
      if_true, if_false, Bool.false_eq_true, Bool.true_eq_false, ite_true, ite_false] <;>
    constructor <;>
    simp only [W64] at * <;> omega

/-- One `AddPacket` step preserves the family-subtotal equation. -/
theorem addPacket_family_inv (extra : Option IPNet) (v : Values) (m : Metadata)
    (hb : (v.v4.bytes + v.v6.bytes) % W64 = (v.up.bytes + v.down.bytes + v.external.bytes) % W64)
    (hp : (v.v4.packets + v.v6.packets) % W64 = (v.up.packets + v.down.packets + v.external.packets) % W64) :
    ((AddPacket extra v m).v4.bytes + (AddPacket extra v m).v6.bytes) % W64 =
      ((AddPacket extra v m).up.bytes + (AddPacket extra v m).down.bytes +
       (AddPacket extra v m).external.bytes) % W64 ∧
    ((AddPacket extra v m).v4.packets + (AddPacket extra v m).v6.packets) % W64 =
      ((AddPacket extra v m).up.packets + (AddPacket extra v m).down.packets +
       (AddPacket extra v m).external.packets) % W64 := by
  unfold AddPacket aggAdd
  cases hs : IsLocal extra m.srcIP <;> cases hd : IsLocal extra m.dstIP <;>
    cases h6 : m.v6 <;>
    simp only [Bool.true_and, Bool.false_and, Bool.and_self, Bool.not_true, Bool.not_false,
      if_true, if_false, Bool.false_eq_true, Bool.true_eq_false, ite_true, ite_false] <;>
    constructor <;>
    simp only [W64] at * <;> omega

/-- C4. After any finite sequence of `AddPacket` calls starting from the
zero counters, `Total.bytes` equals the sum of the `Up`, `Down`,
`Internal` and `External` byte counters (in `uint64` arithmetic, i.e.
modulo `2^64`), and likewise for the packet counters. -/
theorem C4_total_equals_direction_sum (extra : Option IPNet) (ms : List Metadata) :
    (ms.foldl (AddPacket extra) zeroValues).total.bytes =
      ((ms.foldl (AddPacket extra) zeroValues).up.bytes +
       (ms.foldl (AddPacket extra) zeroValues).down.bytes +
       (ms.foldl (AddPacket extra) zeroValues).internal.bytes +
       (ms.foldl (AddPacket extra) zeroValues).external.bytes) % W64 ∧
    (ms.foldl (AddPacket extra) zeroValues).total.packets =
      ((ms.foldl (AddPacket extra) zeroValues).up.packets +
       (ms.foldl (AddPacket extra) zeroValues).down.packets +
       (ms.foldl (AddPacket extra) zeroValues).internal.packets +
       (ms.foldl (AddPacket extra) zeroValues).external.packets) % W64 := by
  suffices h : ∀ (v : Values),
      v.total.bytes = (v.up.bytes + v.down.bytes + v.internal.bytes + v.external.bytes) % W64 →
      v.total.packets = (v.up.packets + v.down.packets + v.internal.packets + v.external.packets) % W64 →
      (ms.foldl (AddPacket extra) v).total.bytes =
        ((ms.foldl (AddPacket extra) v).up.bytes + (ms.foldl (AddPacket extra) v).down.bytes +
         (ms.foldl (AddPacket extra) v).internal.bytes + (ms.foldl (AddPacket extra) v).external.bytes) % W64 ∧
      (ms.foldl (AddPacket extra) v).total.packets =
        ((ms.foldl (AddPacket extra) v).up.packets + (ms.foldl (AddPacket extra) v).down.packets +
         (ms.foldl (AddPacket extra) v).internal.packets + (ms.foldl (AddPacket extra) v).external.packets) % W64 by
    exact h zeroValues (by simp [zeroValues]) (by simp [zeroValues])
  induction ms with
  | nil => intro v hb hp; exact ⟨hb, hp⟩
  | cons m rest ih =>
      intro v hb hp
      obtain ⟨hb', hp'⟩ := addPacket_total_inv extra v m hb hp
      exact ih (AddPacket extra v m) hb' hp'

/-- C5. After any finite sequence of `AddPacket` calls starting from
the zero counters, `V4 + V6` equals `Up + Down + External` (in `uint64`
arithmetic), both for bytes and for packets: the family counters are
updated exactly when the flow is not both-local. The second conjunct
states the update condition itself: a both-local flow never touches the
family counters. -/
theorem C5_family_subtotals (extra : Option IPNet) (ms : List Metadata) :
    (((ms.foldl (AddPacket extra) zeroValues).v4.bytes +
      (ms.foldl (AddPacket extra) zeroValues).v6.bytes) % W64 =
      ((ms.foldl (AddPacket extra) zeroValues).up.bytes +
       (ms.foldl (AddPacket extra) zeroValues).down.bytes +
       (ms.foldl (AddPacket extra) zeroValues).external.bytes) % W64 ∧
     ((ms.foldl (AddPacket extra) zeroValues).v4.packets +
      (ms.foldl (AddPacket extra) zeroValues).v6.packets) % W64 =
      ((ms.foldl (AddPacket extra) zeroValues).up.packets +
       (ms.foldl (AddPacket extra) zeroValues).down.packets +
       (ms.foldl (AddPacket extra) zeroValues).external.packets) % W64) ∧
    (∀ (v : Values) (m : Metadata),
      IsLocal extra m.srcIP = true → IsLocal extra m.dstIP = true →
      (AddPacket extra v m).v4 = v.v4 ∧ (AddPacket extra v m).v6 = v.v6) ∧
    (∀ (v : Values) (m : Metadata),
      ¬(IsLocal extra m.srcIP = true ∧ IsLocal extra m.dstIP = true) →
      (if m.v6 then (AddPacket extra v m).v6 = aggAdd v.v6 m.size
       else (AddPacket extra v m).v4 = aggAdd v.v4 m.size)) := by
  refine ⟨?_, ?_, ?_⟩
  · suffices h : ∀ (v : Values),
        (v.v4.bytes + v.v6.bytes) % W64 = (v.up.bytes + v.down.bytes + v.external.bytes) % W64 →
        (v.v4.packets + v.v6.packets) % W64 = (v.up.packets + v.down.packets + v.external.packets) % W64 →
        ((ms.foldl (AddPacket extra) v).v4.bytes + (ms.foldl (AddPacket extra) v).v6.bytes) % W64 =
          ((ms.foldl (AddPacket extra) v).up.bytes + (ms.foldl (AddPacket extra) v).down.bytes +
           (ms.foldl (AddPacket extra) v).external.bytes) % W64 ∧
        ((ms.foldl (AddPacket extra) v).v4.packets + (ms.foldl (AddPacket extra) v).v6.packets) % W64 =
          ((ms.foldl (AddPacket extra) v).up.packets + (ms.foldl (AddPacket extra) v).down.packets +
           (ms.foldl (AddPacket extra) v).external.packets) % W64 by
      exact h zeroValues (by simp [zeroValues]) (by simp [zeroValues])
    induction ms with
    | nil => intro v hb hp; exact ⟨hb, hp⟩
    | cons m rest ih =>
        intro v hb hp
        obtain ⟨hb', hp'⟩ := addPacket_family_inv extra v m hb hp
        exact ih (AddPacket extra v m) hb' hp'
  · intro v m hs hd
    unfold AddPacket
    simp [hs, hd]
  · intro v m hnot
    unfold AddPacket
    cases hs : IsLocal extra m.srcIP <;> cases hd : IsLocal extra m.dstIP <;>
      cases h6 : m.v6 <;> simp_all

/-- Witness for C5's conditional parts: an intra-local 64-byte flow
10.0.0.1 → 192.168.1.1 leaves both family counters untouched. -/
theorem C5_witness :
    IsLocal none (⟨0, 64, "", "", [10, 0, 0, 1], [192, 168, 1, 1], 0, 0, false⟩ : Metadata).srcIP = true ∧
    IsLocal none (⟨0, 64, "", "", [10, 0, 0, 1], [192, 168, 1, 1], 0, 0, false⟩ : Metadata).dstIP = true ∧
    (AddPacket none zeroValues ⟨0, 64, "", "", [10, 0, 0, 1], [192, 168, 1, 1], 0, 0, false⟩).v4 =
      zeroValues.v4 ∧
    (AddPacket none zeroValues ⟨0, 64, "", "", [10, 0, 0, 1], [192, 168, 1, 1], 0, 0, false⟩).v6 =
      zeroValues.v6 := by
  have h := (C5_family_subtotals none []).2.1 zeroValues
    ⟨0, 64, "", "", [10, 0, 0, 1], [192, 168, 1, 1], 0, 0, false⟩
    (by decide) (by decide)
  exact ⟨by decide, by decide, h.1, h.2⟩

/-! ## Absent IPs (C10) -/

/-- Well-formedness of a parsed netblock, as `net.ParseCIDR` guarantees
it: the network number and the mask have equal length, either 4 or 16. -/
def wfNet (n : IPNet) : Prop :=
  n.netIP.length = n.mask.length ∧ (n.netIP.length = 4 ∨ n.netIP.length = 16)

/-- A successful `To4` always yields four bytes. -/
theorem to4_length {ip p4 : IP} (h : to4 ip = some p4) : p4.length = 4 := by
  unfold to4 at h
  split_ifs at h with h1 h2
  · cases h; exact h1
  · simp only [Bool.and_eq_true, decide_eq_true_eq] at h2
    cases h
    simp [h2.1.1.1]

/-- The bytes of a successful `To4` all occur in the original slice. -/
theorem to4_mem {ip p4 : IP} (h : to4 ip = some p4) : ∀ x ∈ p4, x ∈ ip := by
  unfold to4 at h
  split_ifs at h with h1 h2
  · cases h; exact fun x hx => hx
  · cases h; exact fun x hx => (List.drop_subset 12 ip) hx

/-- `To4` fails only on slices that are not 4 bytes long. -/
theorem to4_none_length {ip : IP} (h : to4 ip = none) : ip.length ≠ 4 := by
  unfold to4 at h
  intro h4
  simp [h4] at h

/-- The canonical network number of a well-formed netblock has length 4
or 16. -/
theorem networkNumberAndMask_fst_length (n : IPNet) (h : wfNet n) :
    (networkNumberAndMask n).1.length = 4 ∨ (networkNumberAndMask n).1.length = 16 := by
  obtain ⟨hlen, hor⟩ := h
  unfold networkNumberAndMask
  rcases hto : to4 n.netIP with _ | p4
  · rcases hor with h4 | h16
    · exact absurd h4 (to4_none_length hto)
    · simp only [hto, h16, if_true]
      have hne : n.netIP ≠ [] := by
        intro hnil; rw [hnil] at h16; simp at h16
      have hmask : n.mask.length = 16 := by omega
      simp [List.isEmpty_iff, hne, hmask, h16]
  · have hp4 := to4_length hto
    have hne : p4 ≠ [] := by
      intro hnil; rw [hnil] at hp4; simp at hp4
    rcases hor with h4 | h16
    · have hmask : n.mask.length = 4 := by omega
      simp [hto, List.isEmpty_iff, hne, hmask, hp4]
    · have hmask : n.mask.length = 16 := by omega
      have hm4 : n.mask.length ≠ 4 := by omega
      simp [hto, List.isEmpty_iff, hne, hmask, hm4, hp4]

/-- A well-formed netblock never contains the nil IP: its canonical
network number has length 4 or 16, while the nil query has length 0. -/
theorem contains_nil_eq_false (n : IPNet) (h : wfNet n) : contains n [] = false := by
  have hlen := networkNumberAndMask_fst_length n h
  unfold contains
  have h0 : to4 ([] : IP) = none := rfl
  simp only [h0, Option.getD_none, List.length_nil]
  have : (0 : Nat) ≠ (networkNumberAndMask n).1.length := by omega
  simp [this]

/-- `IsLocal` of the nil IP is false, given a well-formed (or absent)
operator netblock. -/
theorem isLocal_nil_eq_false (extra : Option IPNet) (h : ∀ n ∈ extra, wfNet n) :
    IsLocal extra [] = false := by
  unfold IsLocal
  rcases extra with _ | n
  · decide
  · have := contains_nil_eq_false n (h n rfl)
    simp [this]
    decide

/-- C10. A `Metadata` record whose IPs are both absent (nil) is still
counted: with a well-formed (or unset) operator netblock, `IsLocal` of
nil is false, so the packet lands in `Total`, `External` and — when the
v6 flag is false — `V4`, leaving `Up`, `Down`, `Internal` and `V6`
untouched. -/
theorem C10_nil_ips_counted_external_v4 (extra : Option IPNet) (v : Values) (m : Metadata)
    (hwf : ∀ n ∈ extra, wfNet n)
    (hsrc : m.srcIP = []) (hdst : m.dstIP = []) (h6 : m.v6 = false) :
    AddPacket extra v m =
      { v with total := aggAdd v.total m.size,
               external := aggAdd v.external m.size,
               v4 := aggAdd v.v4 m.size } := by
  have hl := isLocal_nil_eq_false extra hwf
  unfold AddPacket
  rw [hsrc, hdst, hl, h6]
  simp

/-- Witness for C10 at a concrete record: a 60-byte frame with no IP
layer decoded, no operator netblock. -/
theorem C10_witness :
    (∀ n ∈ (none : Option IPNet), wfNet n) ∧
    AddPacket none zeroValues { emptyMetadata with size := 60 } =
      { zeroValues with total := aggAdd zeroValues.total 60,
                        external := aggAdd zeroValues.external 60,
                        v4 := aggAdd zeroValues.v4 60 } := by
  refine ⟨by simp, ?_⟩
  exact C10_nil_ips_counted_external_v4 none zeroValues { emptyMetadata with size := 60 }
    (by simp) rfl rfl rfl

/-! ## The classifier against the spec ranges (C6) -/

set_option maxRecDepth 8192
set_option maxHeartbeats 1000000

/-- Masking with 255 keeps a byte. -/
theorem land255_fin : ∀ a : Fin 256, a.val &&& 255 = a.val := by decide

/-- The /12 mask condition on the second octet of 172.16/12. -/
theorem land240_fin : ∀ a : Fin 256, (a.val &&& 240 = 16 ↔ 16 ≤ a.val ∧ a.val ≤ 31) := by decide

/-- The /10 mask condition on the second byte of fe80::/10. -/
theorem land192_fin : ∀ a : Fin 256, (a.val &&& 192 = 128 ↔ 128 ≤ a.val ∧ a.val ≤ 191) := by decide

/-- Masking with 255 keeps a byte (Nat form). -/
theorem land255_eq {a : Nat} (h : a < 256) : a &&& 255 = a := land255_fin ⟨a, h⟩

theorem land240_eq {a : Nat} (h : a < 256) : (a &&& 240 = 16 ↔ 16 ≤ a ∧ a ≤ 31) :=
  land240_fin ⟨a, h⟩

theorem land192_eq {a : Nat} (h : a < 256) : (a &&& 192 = 128 ↔ 128 ≤ a ∧ a ≤ 191) :=
  land192_fin ⟨a, h⟩

/-- A list of length 4 is a four-element list. -/
theorem list_eq_four {l : List Nat} (h : l.length = 4) : ∃ a b c d, l = [a, b, c, d] := by
  match l, h with
  | [a, b, c, d], _ => exact ⟨a, b, c, d, rfl⟩

/-- `Contains` for a 4-byte netblock, byte by byte. -/
theorem contains_four {n0 n1 n2 n3 m0 m1 m2 m3 : Nat} {ip : IP} :
    contains ⟨[n0, n1, n2, n3], [m0, m1, m2, m3]⟩ ip = true ↔
      ∃ a b c d, to4 ip = some [a, b, c, d] ∧
        n0 &&& m0 = a &&& m0 ∧ n1 &&& m1 = b &&& m1 ∧
        n2 &&& m2 = c &&& m2 ∧ n3 &&& m3 = d &&& m3 := by
  have hnm : networkNumberAndMask ⟨[n0, n1, n2, n3], [m0, m1, m2, m3]⟩ =
      ([n0, n1, n2, n3], [m0, m1, m2, m3]) := by
    unfold networkNumberAndMask to4
    simp
  rcases hto : to4 ip with _ | p4
  · have hlen := to4_none_length hto
    unfold contains
    rw [hnm, hto]
    simp [hlen]
  · obtain ⟨a, b, c, d, rfl⟩ := list_eq_four (to4_length hto)
    unfold contains
    rw [hnm, hto]
    constructor
    · intro h
      refine ⟨a, b, c, d, rfl, ?_⟩
      simpa [List.range_succ] using h
    · rintro ⟨a', b', c', d', heq, h⟩
      obtain ⟨rfl, rfl, rfl, rfl⟩ : a = a' ∧ b = b' ∧ c = c' ∧ d = d' := by
        injection heq with h1
        simp_all
      simpa [List.range_succ] using h

/-- `Contains` for the fd00::/8 netblock. -/
theorem contains_fd {ip : IP} :
    contains ⟨[253, 0, 0, 0, 0, 0, 0, 0, 0, 0, 0, 0, 0, 0, 0, 0],
              [255, 0, 0, 0, 0, 0, 0, 0, 0, 0, 0, 0, 0, 0, 0, 0]⟩ ip = true ↔
      to4 ip = none ∧ ip.length = 16 ∧ 253 = ip.getD 0 0 &&& 255 := by
  have hnm : networkNumberAndMask
      ⟨[253, 0, 0, 0, 0, 0, 0, 0, 0, 0, 0, 0, 0, 0, 0, 0],
       [255, 0, 0, 0, 0, 0, 0, 0, 0, 0, 0, 0, 0, 0, 0, 0]⟩ =
      ([253, 0, 0, 0, 0, 0, 0, 0, 0, 0, 0, 0, 0, 0, 0, 0],
       [255, 0, 0, 0, 0, 0, 0, 0, 0, 0, 0, 0, 0, 0, 0, 0]) := by
    unfold networkNumberAndMask to4 isZeros
    simp
  unfold contains
  rw [hnm]
  rcases hto : to4 ip with _ | p4
  · simp only [Option.getD_none]
    by_cases hlen : ip.length = 16
    · rw [if_neg (by simp [hlen])]
      constructor
      · intro h
        refine ⟨by trivial, hlen, ?_⟩
        have h0 := List.all_eq_true.1 h 0 (by simp [hlen])
        simpa using h0
      · rintro ⟨-, -, h0⟩
        rw [eq_comm] at h0
        simp only [List.getD_eq_getElem?_getD] at h0
        apply List.all_eq_true.2
        intro i hi
        have hi' : i < 16 := by
          have := List.mem_range.1 hi
          omega
        interval_cases i <;> simp [h0]
        decide
    · rw [if_pos (by simp [hlen])]
      simp [hlen]
  · have h4 := to4_length hto
    simp only [Option.getD_some]
    rw [if_pos (by simp [h4])]
    simp

/-- `Contains` for the fe80::/10 netblock. -/
theorem contains_fe80 {ip : IP} :
    contains ⟨[254, 128, 0, 0, 0, 0, 0, 0, 0, 0, 0, 0, 0, 0, 0, 0],
              [255, 192, 0, 0, 0, 0, 0, 0, 0, 0, 0, 0, 0, 0, 0, 0]⟩ ip = true ↔
      to4 ip = none ∧ ip.length = 16 ∧ 254 = ip.getD 0 0 &&& 255 ∧
        128 = ip.getD 1 0 &&& 192 := by
  have hnm : networkNumberAndMask
      ⟨[254, 128, 0, 0, 0, 0, 0, 0, 0, 0, 0, 0, 0, 0, 0, 0],
       [255, 192, 0, 0, 0, 0, 0, 0, 0, 0, 0, 0, 0, 0, 0, 0]⟩ =
      ([254, 128, 0, 0, 0, 0, 0, 0, 0, 0, 0, 0, 0, 0, 0, 0],
       [255, 192, 0, 0, 0, 0, 0, 0, 0, 0, 0, 0, 0, 0, 0, 0]) := by
    unfold networkNumberAndMask to4 isZeros
    simp
  unfold contains
  rw [hnm]
  rcases hto : to4 ip with _ | p4
  · simp only [Option.getD_none]
    by_cases hlen : ip.length = 16
    · rw [if_neg (by simp [hlen])]
      constructor
      · intro h
        have h0 := List.all_eq_true.1 h 0 (by simp [hlen])
        have h1 := List.all_eq_true.1 h 1 (by simp [hlen])
        exact ⟨by trivial, hlen, by simpa using h0, by simpa using h1⟩
      · rintro ⟨-, -, h0, h1⟩
        rw [eq_comm] at h0
        rw [eq_comm] at h1
        simp only [List.getD_eq_getElem?_getD] at h0 h1
        apply List.all_eq_true.2
        intro i hi
        have hi' : i < 16 := by
          have := List.mem_range.1 hi
          omega
        interval_cases i <;> simp [h0, h1]
        all_goals decide
    · rw [if_pos (by simp [hlen])]
      simp [hlen]
  · have h4 := to4_length hto
    simp only [Option.getD_some]
    rw [if_pos (by simp [h4])]
    simp

/-- The spec's reading of the hard-wired ranges plus the operator
range: dotted-decimal prefix conditions on the canonical IPv4 form, and
leading-byte conditions on true IPv6 addresses. -/
def isLocalSpec (extra : Option IPNet) (ip : IP) : Prop :=
  (∃ a b c d, to4 ip = some [a, b, c, d] ∧
    (a = 10 ∨ (a = 172 ∧ 16 ≤ b ∧ b ≤ 31) ∨ (a = 192 ∧ b = 168) ∨ (a = 169 ∧ b = 254) ∨
     (a = 0 ∧ b = 0 ∧ c = 0 ∧ d = 0) ∨ (a = 255 ∧ b = 255 ∧ c = 255 ∧ d = 255))) ∨
  (to4 ip = none ∧ ip.length = 16 ∧
    (ip.getD 0 0 = 253 ∨ (ip.getD 0 0 = 254 ∧ 128 ≤ ip.getD 1 0 ∧ ip.getD 1 0 ≤ 191))) ∨
  (∃ n, extra = some n ∧ contains n ip = true)

/-- Every byte of a valid IP slice is below 256. -/
def validIP (ip : IP) : Prop := ∀ x ∈ ip, x < 256

/-- C6. `IsLocal` returns true exactly on the IPs that fall in one of
the hard-wired ranges {10/8, 172.16/12, 192.168/16, 169.254/16,
0.0.0.0/32, 255.255.255.255/32, fd00::/8, fe80::/10} or in the
operator-declared extra range; every other IP yields false. -/
theorem C6_isLocal_iff_spec (extra : Option IPNet) (ip : IP) (hv : validIP ip) :
    IsLocal extra ip = true ↔ isLocalSpec extra ip := by
  have hbyte : ∀ i, ip.getD i 0 < 256 := by
    intro i
    rw [List.getD_eq_getElem?_getD]
    rcases h : ip[i]? with _ | x
    · simp
    · have hx : x ∈ ip := List.getElem?_mem h
      simpa using hv x hx
  unfold IsLocal isLocalSpec
  simp only [stdLocalNets, List.any_cons, List.any_nil, Bool.or_false, Bool.or_eq_true,
    contains_four, contains_fd, contains_fe80]
  rcases hto : to4 ip with _ | p4
  · have e1 := land255_eq (hbyte 0)
    have e2 : (128 = List.getD ip 1 0 &&& 192) ↔ (128 ≤ List.getD ip 1 0 ∧ List.getD ip 1 0 ≤ 191) := by
      rw [eq_comm]
      exact land192_eq (hbyte 1)
    rcases extra with _ | n
    · simp only [reduceCtorEq, false_and, exists_false, false_or, or_false, true_and,
        Bool.false_eq_true]
      rw [e1, e2]
      omega
    · simp only [reduceCtorEq, false_and, exists_false, false_or, or_false, true_and,
        Option.some.injEq, exists_eq_left']
      rw [e1, e2]
      cases hcn : contains n ip
      · simp only [hcn, Bool.false_eq_true, false_or, or_false]
        omega
      · simp only [hcn, or_true, true_or]
  · obtain ⟨a, b, c, d, rfl⟩ := list_eq_four (to4_length hto)
    have hmem4 : ∀ x ∈ [a, b, c, d], x < 256 := fun x hx => hv x (to4_mem hto x hx)
    have ha : a < 256 := hmem4 a (by simp)
    have hb : b < 256 := hmem4 b (by simp)
    have hc : c < 256 := hmem4 c (by simp)
    have hd : d < 256 := hmem4 d (by simp)
    have c10 : (10 : Nat) &&& 255 = 10 := by decide
    have c172 : (172 : Nat) &&& 255 = 172 := by decide
    have c192 : (192 : Nat) &&& 255 = 192 := by decide
    have c169 : (169 : Nat) &&& 255 = 169 := by decide
    have c168 : (168 : Nat) &&& 255 = 168 := by decide
    have c254 : (254 : Nat) &&& 255 = 254 := by decide
    have c0 : (0 : Nat) &&& 255 = 0 := by decide
    have c255 : (255 : Nat) &&& 255 = 255 := by decide
    have c16 : (16 : Nat) &&& 240 = 16 := by decide
    have f5b : (16 = b &&& 240) ↔ (16 ≤ b ∧ b ≤ 31) := by
      rw [eq_comm]
      exact land240_eq hb
    rcases extra with _ | n
    · simp only [hto, Option.some.injEq, List.cons.injEq, and_assoc, exists_and_left,
        exists_eq_left', Nat.and_zero, Nat.zero_and,
        reduceCtorEq, false_and, and_false, exists_false, false_or, or_false, true_and, and_true,
        land255_eq ha, land255_eq hb, land255_eq hc, land255_eq hd,
        c10, c172, c192, c169, c168, c254, c0, c255, c16, f5b, Bool.false_eq_true]
      omega
    · simp only [hto, Option.some.injEq, List.cons.injEq, and_assoc, exists_and_left,
        exists_eq_left', Nat.and_zero, Nat.zero_and,
        reduceCtorEq, false_and, and_false, exists_false, false_or, or_false, true_and, and_true,
        land255_eq ha, land255_eq hb, land255_eq hc, land255_eq hd,
        c10, c172, c192, c169, c168, c254, c0, c255, c16, f5b]
      cases hcn : contains n ip
      · simp only [hcn, Bool.false_eq_true, false_or, or_false]
        omega
      · simp only [hcn, or_true, true_or]

/-! ## Map lemmas -/

/-- Reading back the key just written. -/
theorem mapLookup_insert_self {α β : Type} [DecidableEq α] (k : α) (v : β)
    (m : List (α × β)) : mapLookup k (mapInsert k v m) = some v := by
  simp [mapLookup, mapInsert]

/-- Filtering out a key does not affect searches for another key. -/
theorem find?_filter_ne {α β : Type} [DecidableEq α] (k k' : α) (h : k' ≠ k)
    (m : List (α × β)) :
    (m.filter (fun p => p.1 ≠ k)).find? (fun p => p.1 = k') =
      m.find? (fun p => p.1 = k') := by
  induction m with
  | nil => rfl
  | cons p rest ih =>
      by_cases hp : p.1 = k
      · have hq : ¬(p.1 = k') := by
          rw [hp]
          exact fun he => h he.symm
        rw [List.filter_cons_of_neg (by simp [hp])]
        rw [List.find?_cons_of_neg _ (by simp [hq])]
        exact ih
      · rw [List.filter_cons_of_pos (by simp [hp])]
        by_cases hq : p.1 = k'
        · rw [List.find?_cons_of_pos _ (by simp [hq]), List.find?_cons_of_pos _ (by simp [hq])]
        · rw [List.find?_cons_of_neg _ (by simp [hq]), List.find?_cons_of_neg _ (by simp [hq])]
          exact ih

/-- Writing one key leaves the others unchanged. -/
theorem mapLookup_insert_ne {α β : Type} [DecidableEq α] {k k' : α} (v : β)
    (m : List (α × β)) (h : k' ≠ k) :
    mapLookup k' (mapInsert k v m) = mapLookup k' m := by
  unfold mapLookup mapInsert
  rw [List.find?_cons_of_neg _ (by simp; exact fun he => h he.symm)]
  rw [find?_filter_ne k k' h]

/-! ## CNAME cycles make `add` spin (C2) -/

/-- A one-step alias walk when the name has no alias. -/
theorem walkCNAMEs_terminal {cn : List (List Nat × List Nat)} {n : List Nat}
    (h : mapLookup n cn = none) (fuel : Nat) :
    walkCNAMEs cn (fuel + 1) n = some [n] := by
  simp [walkCNAMEs, h]

/-- C2 (falsified by the code). The DNS answer binding 1.2.3.4 to the
name "a" together with the IN CNAME cycle a→b→a makes the alias walk of
`add` revisit "a" and "b" forever: the walk completes under no fuel
bound, and `add` itself never returns, whatever the prior map. The
names "a" and "b" are the byte strings `[97]` and `[98]`. -/
theorem C2_cname_cycle_walk_diverges :
    (∀ fuel, walkCNAMEs
      (buildCnames
        [⟨[97], DNSType.A, DNSClass.IN, [1, 2, 3, 4], []⟩,
         ⟨[98], DNSType.CNAME, DNSClass.IN, [], [97]⟩,
         ⟨[97], DNSType.CNAME, DNSClass.IN, [], [98]⟩])
      fuel [97] = none) ∧
    (∀ rm : RevMap, revAdd
      [⟨[97], DNSType.A, DNSClass.IN, [1, 2, 3, 4], []⟩,
       ⟨[98], DNSType.CNAME, DNSClass.IN, [], [97]⟩,
       ⟨[97], DNSType.CNAME, DNSClass.IN, [], [98]⟩] rm = none) := by
  have hcn : buildCnames
      [⟨[97], DNSType.A, DNSClass.IN, [1, 2, 3, 4], []⟩,
       ⟨[98], DNSType.CNAME, DNSClass.IN, [], [97]⟩,
       ⟨[97], DNSType.CNAME, DNSClass.IN, [], [98]⟩] =
      [([98], [97]), ([97], [98])] := by decide
  have key : ∀ fuel,
      walkCNAMEs [([98], [97]), ([97], [98])] fuel [97] = none ∧
      walkCNAMEs [([98], [97]), ([97], [98])] fuel [98] = none := by
    intro fuel
    induction fuel with
    | zero => exact ⟨rfl, rfl⟩
    | succ f ih =>
        constructor
        · have hl : mapLookup [97] [([98], [97]), ([97], [98])] = some [98] := by decide
          simp [walkCNAMEs, hl, ih.2]
        · have hl : mapLookup [98] [([98], [97]), ([97], [98])] = some [97] := by decide
          simp [walkCNAMEs, hl, ih.1]
  constructor
  · intro fuel
    rw [hcn]
    exact (key fuel).1
  · intro rm
    have hips : buildIps
        [⟨[97], DNSType.A, DNSClass.IN, [1, 2, 3, 4], []⟩,
         ⟨[98], DNSType.CNAME, DNSClass.IN, [], [97]⟩,
         ⟨[97], DNSType.CNAME, DNSClass.IN, [], [98]⟩] =
        [(mkIPEndpoint [1, 2, 3, 4], [97])] := by decide
    unfold revAdd
    rw [hcn, hips]
    simp [List.foldl, addStep, (key 3).1]

/-! ## CNAME chain ordering (C3) -/

/-- `joinNames` on a three-name chain. -/
theorem joinNames_three (t m1 m2 : List Nat) :
    joinNames [t, m1, m2] =
      String.mk (t.map Char.ofNat) ++ "," ++ String.mk (m1.map Char.ofNat) ++ "," ++
        String.mk (m2.map Char.ofNat) := by
  simp [joinNames, String.intercalate, String.intercalate.go]

/-- C3. For a DNS answer with an IN A record binding address `I` to
terminal name `T` and IN CNAME records forming the chain `T→M₁→M₂`
(distinct names, as in a real chain), `add` stores and `name` returns
the comma-joined chain "T,M₁,M₂": terminal name first, then each
successive alias, in that order. -/
theorem C3_cname_chain_order (rm : RevMap) (I : IP) (T M1 M2 : List Nat)
    (h1 : T ≠ M1) (h2 : M2 ≠ T) (h3 : M2 ≠ M1) :
    ∃ rm', revAdd
        [⟨T, DNSType.A, DNSClass.IN, I, []⟩,
         ⟨M1, DNSType.CNAME, DNSClass.IN, [], T⟩,
         ⟨M2, DNSType.CNAME, DNSClass.IN, [], M1⟩] rm = some rm' ∧
      revName rm' (mkIPEndpoint I) =
        String.mk (T.map Char.ofNat) ++ "," ++ String.mk (M1.map Char.ofNat) ++ "," ++
          String.mk (M2.map Char.ofNat) := by
  have h1' : M1 ≠ T := fun he => h1 he.symm
  have h2' : T ≠ M2 := fun he => h2 he.symm
  have h3' : M1 ≠ M2 := fun he => h3 he.symm
  have hcn : buildCnames
      [⟨T, DNSType.A, DNSClass.IN, I, []⟩,
       ⟨M1, DNSType.CNAME, DNSClass.IN, [], T⟩,
       ⟨M2, DNSType.CNAME, DNSClass.IN, [], M1⟩] = [(M1, M2), (T, M1)] := by
    simp [buildCnames, cnStep, mapInsert, List.filter_cons, h1, h1']
  have hips : buildIps
      [⟨T, DNSType.A, DNSClass.IN, I, []⟩,
       ⟨M1, DNSType.CNAME, DNSClass.IN, [], T⟩,
       ⟨M2, DNSType.CNAME, DNSClass.IN, [], M1⟩] = [(mkIPEndpoint I, T)] := by
    simp [buildIps, ipsStep, mapInsert]
  have hw : walkCNAMEs [(M1, M2), (T, M1)] 3 T = some [T, M1, M2] := by
    have l1 : mapLookup T [(M1, M2), (T, M1)] = some M1 := by
      simp [mapLookup, List.find?_cons, h1']
    have l2 : mapLookup M1 [(M1, M2), (T, M1)] = some M2 := by
      simp [mapLookup, List.find?_cons]
    have l3 : mapLookup M2 [(M1, M2), (T, M1)] = none := by
      simp [mapLookup, List.find?_cons, h2', h3']
    simp [walkCNAMEs, l1, l2, l3]
  refine ⟨mapInsert (mkIPEndpoint I) (joinNames [T, M1, M2]) rm, ?_, ?_⟩
  · unfold revAdd
    rw [hcn, hips]
    simp [List.foldl, addStep, hw]
  · rw [← joinNames_three]
    unfold revName
    rw [mapLookup_insert_self]
    rfl

/-- Witness for C3: the repository's CNAME-chain test extended by one
more alias link, names "t" (`[116]`), "m1" (`[109, 49]`),
"m2" (`[109, 50]`), address 1.2.3.4. -/
theorem C3_witness :
    ([116] : List Nat) ≠ [109, 49] ∧ ([109, 50] : List Nat) ≠ [116] ∧
    ([109, 50] : List Nat) ≠ [109, 49] ∧
    ∃ rm', revAdd
        [⟨[116], DNSType.A, DNSClass.IN, [1, 2, 3, 4], []⟩,
         ⟨[109, 49], DNSType.CNAME, DNSClass.IN, [], [116]⟩,
         ⟨[109, 50], DNSType.CNAME, DNSClass.IN, [], [109, 49]⟩] newReverseDNSMap = some rm' ∧
      revName rm' (mkIPEndpoint [1, 2, 3, 4]) =
        String.mk (([116] : List Nat).map Char.ofNat) ++ "," ++
          String.mk (([109, 49] : List Nat).map Char.ofNat) ++ "," ++
          String.mk (([109, 50] : List Nat).map Char.ofNat) :=
  ⟨by decide, by decide, by decide,
   C3_cname_chain_order newReverseDNSMap [1, 2, 3, 4] [116] [109, 49] [109, 50]
     (by decide) (by decide) (by decide)⟩

/-! ## Learning A/AAAA bindings (C7) -/

/-- Qualifying address records for the `ips` bucket. -/
def isAddrRecord (a : DNSRecord) : Prop :=
  a.rclass = DNSClass.IN ∧ (a.rtype = DNSType.A ∨ a.rtype = DNSType.AAAA)

/-- Once the accumulator binds `e` to `N` and every remaining address
record for `e` carries the name `N`, the `ips` fold keeps the binding. -/
theorem ipsFold_lookup_of_agree {e : Endpoint} {N : List Nat} :
    ∀ (l : List DNSRecord) (acc : List (Endpoint × List Nat)),
      mapLookup e acc = some N →
      (∀ rec ∈ l, isAddrRecord rec → mkIPEndpoint rec.ip = e → rec.rname = N) →
      mapLookup e (l.foldl ipsStep acc) = some N := by
  intro l
  induction l with
  | nil => intro acc h _; exact h
  | cons a rest ih =>
      intro acc h hagree
      rw [List.foldl_cons]
      by_cases hq : isAddrRecord a
      · by_cases he : mkIPEndpoint a.ip = e
        · have hn : a.rname = N := hagree a (by simp) hq he
          have : ipsStep acc a = mapInsert e N acc := by
            unfold ipsStep
            rw [he, hn]
            exact if_pos hq
          rw [this]
          exact ih _ (by rw [mapLookup_insert_self]) fun rec hr => hagree rec (by simp [hr])
        · have : ipsStep acc a = mapInsert (mkIPEndpoint a.ip) a.rname acc := by
            unfold ipsStep
            exact if_pos hq
          rw [this]
          refine ih _ ?_ fun rec hr => hagree rec (by simp [hr])
          rw [mapLookup_insert_ne _ _ fun hc => he hc.symm]
          exact h
      · have : ipsStep acc a = acc := by
          unfold ipsStep
          exact if_neg hq
        rw [this]
        exact ih _ h fun rec hr => hagree rec (by simp [hr])

/-- If some address record binds `e` to `N` and all address records for
`e` agree on `N`, the finished `ips` bucket binds `e` to `N`. -/
theorem buildIps_lookup {answers : List DNSRecord} {rec : DNSRecord}
    {e : Endpoint} {N : List Nat}
    (hmem : rec ∈ answers) (hq : isAddrRecord rec)
    (he : mkIPEndpoint rec.ip = e) (hn : rec.rname = N)
    (hagree : ∀ r ∈ answers, isAddrRecord r → mkIPEndpoint r.ip = e → r.rname = N) :
    mapLookup e (buildIps answers) = some N := by
  unfold buildIps
  suffices h : ∀ (l : List DNSRecord) (acc : List (Endpoint × List Nat)),
      ((∃ r ∈ l, isAddrRecord r ∧ mkIPEndpoint r.ip = e ∧ r.rname = N) ∨
        mapLookup e acc = some N) →
      (∀ r ∈ l, isAddrRecord r → mkIPEndpoint r.ip = e → r.rname = N) →
      mapLookup e (l.foldl ipsStep acc) = some N by
    exact h answers [] (Or.inl ⟨rec, hmem, hq, he, hn⟩) hagree
  intro l
  induction l with
  | nil =>
      intro acc h _
      rcases h with ⟨r, hr, _⟩ | h
      · cases hr
      · exact h
  | cons a rest ih =>
      intro acc h hagree'
      rcases h with ⟨r, hr, hrq, hre, hrn⟩ | h
      · rcases List.mem_cons.1 hr with rfl | hr'
        · rw [List.foldl_cons]
          have : ipsStep acc r = mapInsert e N acc := by
            unfold ipsStep
            rw [hre, hrn]
            exact if_pos hrq
          rw [this]
          exact ipsFold_lookup_of_agree rest _ (by rw [mapLookup_insert_self])
            fun x hx => hagree' x (by simp [hx])
        · rw [List.foldl_cons]
          exact ih _ (Or.inl ⟨r, hr', hrq, hre, hrn⟩) fun x hx => hagree' x (by simp [hx])
      · rw [List.foldl_cons]
        by_cases hq' : isAddrRecord a
        · by_cases he' : mkIPEndpoint a.ip = e
          · have hn' : a.rname = N := hagree' a (by simp) hq' he'
            have : ipsStep acc a = mapInsert e N acc := by
              unfold ipsStep
              rw [he', hn']
              exact if_pos hq' 
            rw [this]
            exact ih _ (Or.inr (by rw [mapLookup_insert_self])) fun x hx => hagree' x (by simp [hx])
          · have : ipsStep acc a = mapInsert (mkIPEndpoint a.ip) a.rname acc := by
              unfold ipsStep
              exact if_pos hq'
            rw [this]
            refine ih _ (Or.inr ?_) fun x hx => hagree' x (by simp [hx])
            rw [mapLookup_insert_ne _ _ fun hc => he' hc.symm]
            exact h
        · have : ipsStep acc a = acc := by
            unfold ipsStep
            exact if_neg hq'
          rw [this]
          exact ih _ (Or.inr h) fun x hx => hagree' x (by simp [hx])

/-- A name no CNAME record points at never enters the `cnames` bucket. -/
theorem buildCnames_lookup_none {answers : List DNSRecord} {N : List Nat}
    (h : ∀ c ∈ answers, c.rclass = DNSClass.IN → c.rtype = DNSType.CNAME → c.cname ≠ N) :
    mapLookup N (buildCnames answers) = none := by
  unfold buildCnames
  suffices hs : ∀ (l : List DNSRecord) (acc : List (List Nat × List Nat)),
      mapLookup N acc = none →
      (∀ c ∈ l, c.rclass = DNSClass.IN → c.rtype = DNSType.CNAME → c.cname ≠ N) →
      mapLookup N (l.foldl cnStep acc) = none by
    exact hs answers [] rfl h
  intro l
  induction l with
  | nil => intro acc hacc _; exact hacc
  | cons a rest ih =>
      intro acc hacc hl
      rw [List.foldl_cons]
      by_cases hq : a.rclass = DNSClass.IN ∧ a.rtype = DNSType.CNAME
      · have hne : a.cname ≠ N := hl a (by simp) hq.1 hq.2
        have : cnStep acc a = mapInsert a.cname a.rname acc := by
          unfold cnStep
          rw [if_pos hq]
        rw [this]
        refine ih _ ?_ fun c hc => hl c (by simp [hc])
        rw [mapLookup_insert_ne _ _ fun hc => hne hc.symm]
        exact hacc
      · have : cnStep acc a = acc := by
          unfold cnStep
          rw [if_neg hq]
        rw [this]
        exact ih _ hacc fun c hc => hl c (by simp [hc])

/-- A successful map lookup exhibits a member entry. -/
theorem mapLookup_some_mem {α β : Type} [DecidableEq α] {k : α} {v : β}
    {m : List (α × β)} (h : mapLookup k m = some v) : (k, v) ∈ m := by
  unfold mapLookup at h
  rcases hf : m.find? (fun p => p.1 = k) with _ | p
  · rw [hf] at h; cases h
  · rw [hf] at h
    have hp := List.find?_some hf
    have hm := List.mem_of_find?_eq_some hf
    simp only [decide_eq_true_eq] at hp
    cases h
    rcases p with ⟨k', v'⟩
    cases hp
    exact hm

/-- `mapInsert` keeps the keys of an association list duplicate-free. -/
theorem mapInsert_keys_nodup {α β : Type} [DecidableEq α] (k : α) (v : β)
    {m : List (α × β)} (h : (m.map Prod.fst).Nodup) :
    ((mapInsert k v m).map Prod.fst).Nodup := by
  unfold mapInsert
  rw [List.map_cons]
  refine List.Nodup.cons ?_ ?_
  · intro hk
    rcases List.mem_map.1 hk with ⟨p, hp, hpk⟩
    have := (List.mem_filter.1 hp).2
    simp only [decide_eq_true_eq] at this
    exact this hpk
  · exact List.Nodup.sublist (List.Sublist.map Prod.fst (List.filter_sublist m)) h

/-- The `ips` bucket has duplicate-free keys. -/
theorem buildIps_keys_nodup (answers : List DNSRecord) :
    ((buildIps answers).map Prod.fst).Nodup := by
  unfold buildIps
  suffices h : ∀ (l : List DNSRecord) (acc : List (Endpoint × List Nat)),
      (acc.map Prod.fst).Nodup → ((l.foldl ipsStep acc).map Prod.fst).Nodup by
    exact h answers [] (by simp)
  intro l
  induction l with
  | nil => intro acc h; exact h
  | cons a rest ih =>
      intro acc h
      rw [List.foldl_cons]
      unfold ipsStep
      split_ifs with hq
      · exact ih _ (mapInsert_keys_nodup _ _ h)
      · exact ih _ h

/-- A fold of `addStep` starting from `none` stays `none`. -/
theorem addStep_fold_none (cn : List (List Nat × List Nat)) :
    ∀ (l : List (Endpoint × List Nat)), l.foldl (addStep cn) none = none := by
  intro l
  induction l with
  | nil => rfl
  | cons p rest ih => rw [List.foldl_cons]; exact ih

/-- `add`'s write loop leaves the bindings of untouched keys alone. -/
theorem addStep_fold_lookup_notin (cn : List (List Nat × List Nat)) {e : Endpoint} :
    ∀ (l : List (Endpoint × List Nat)) (r rm' : RevMap),
      (∀ p ∈ l, p.1 ≠ e) →
      l.foldl (addStep cn) (some r) = some rm' →
      mapLookup e rm' = mapLookup e r := by
  intro l
  induction l with
  | nil =>
      intro r rm' _ h
      cases h
      rfl
  | cons p rest ih =>
      intro r rm' hne h
      rw [List.foldl_cons] at h
      rcases hw : walkCNAMEs cn (cn.length + 1) p.2 with _ | names
      · rw [show addStep cn (some r) p = none by unfold addStep; rw [hw]] at h
        rw [addStep_fold_none] at h
        cases h
      · rw [show addStep cn (some r) p = some (mapInsert p.1 (joinNames names) r) by
          unfold addStep; rw [hw]] at h
        have := ih _ _ (fun q hq => hne q (by simp [hq])) h
        rw [this, mapLookup_insert_ne _ _ fun hc => hne p (by simp) hc.symm]

/-- `add`'s write loop stores the walk of every bucket entry. -/
theorem addStep_fold_lookup (cn : List (List Nat × List Nat)) {e : Endpoint} {N : List Nat} :
    ∀ (l : List (Endpoint × List Nat)) (r rm' : RevMap),
      ((l.map Prod.fst).Nodup) →
      (e, N) ∈ l →
      l.foldl (addStep cn) (some r) = some rm' →
      ∃ names, walkCNAMEs cn (cn.length + 1) N = some names ∧
        mapLookup e rm' = some (joinNames names) := by
  intro l
  induction l with
  | nil =>
      intro r rm' _ hm
      cases hm
  | cons p rest ih =>
      intro r rm' hnd hm h
      rw [List.foldl_cons] at h
      rcases hw : walkCNAMEs cn (cn.length + 1) p.2 with _ | names
      · rw [show addStep cn (some r) p = none by unfold addStep; rw [hw]] at h
        rw [addStep_fold_none] at h
        cases h
      · rw [show addStep cn (some r) p = some (mapInsert p.1 (joinNames names) r) by
          unfold addStep; rw [hw]] at h
        rw [List.map_cons] at hnd
        rcases List.mem_cons.1 hm with rfl | hm'
        · have h' : List.foldl (addStep cn) (some (mapInsert e (joinNames names) r)) rest =
              some rm' := h
          have hw' : walkCNAMEs cn (cn.length + 1) N = some names := hw
          have hnd' : e ∉ rest.map Prod.fst ∧ (rest.map Prod.fst).Nodup :=
            List.nodup_cons.1 hnd
          refine ⟨names, hw', ?_⟩
          have hnotin : ∀ q ∈ rest, q.1 ≠ e := fun q hq hqe =>
            hnd'.1 (List.mem_map.2 ⟨q, hq, hqe⟩)
          rw [addStep_fold_lookup_notin cn rest _ _ hnotin h', mapLookup_insert_self]
        · exact ih _ _ (List.nodup_cons.1 hnd).2 hm' h

/-- `joinNames` of a single name. -/
theorem joinNames_one (n : List Nat) : joinNames [n] = String.mk (n.map Char.ofNat) := by
  simp [joinNames, String.intercalate, String.intercalate.go]

/-- C7. Learning a plain A/AAAA binding: if a class-IN address record
binds name `N` to address `I`, every address record for that endpoint
agrees on `N`, no CNAME record aliases `N`, and `add` completes, then
`name` on the endpoint of `I` returns `N`. Moreover `name` on any
endpoint the map never learned returns the endpoint's canonical string
form. -/
theorem C7_a_record_learning :
    (∀ (answers : List DNSRecord) (rm rm' : RevMap) (rec : DNSRecord) (I : IP) (N : List Nat),
      rec ∈ answers →
      rec.rclass = DNSClass.IN →
      (rec.rtype = DNSType.A ∨ rec.rtype = DNSType.AAAA) →
      rec.ip = I →
      rec.rname = N →
      (∀ r ∈ answers, isAddrRecord r → mkIPEndpoint r.ip = mkIPEndpoint I → r.rname = N) →
      (∀ c ∈ answers, c.rclass = DNSClass.IN → c.rtype = DNSType.CNAME → c.cname ≠ N) →
      revAdd answers rm = some rm' →
      revName rm' (mkIPEndpoint I) = String.mk (N.map Char.ofNat)) ∧
    (∀ (rm : RevMap) (e : Endpoint), mapLookup e rm = none →
      revName rm e = endpointString e) := by
  constructor
  · intro answers rm rm' rec I N hmem hcl hty hip hn hagree hcn hadd
    have he : mkIPEndpoint rec.ip = mkIPEndpoint I := by rw [hip]
    have hb : mapLookup (mkIPEndpoint I) (buildIps answers) = some N :=
      buildIps_lookup hmem ⟨hcl, hty⟩ he hn hagree
    have hmem' : (mkIPEndpoint I, N) ∈ buildIps answers := mapLookup_some_mem hb
    have hcn' : mapLookup N (buildCnames answers) = none := buildCnames_lookup_none hcn
    have hw : walkCNAMEs (buildCnames answers) ((buildCnames answers).length + 1) N =
        some [N] := walkCNAMEs_terminal hcn' _
    unfold revAdd at hadd
    obtain ⟨names, hwn, hlook⟩ :=
      addStep_fold_lookup (buildCnames answers) (buildIps answers) rm rm'
        (buildIps_keys_nodup answers) hmem' hadd
    rw [hw] at hwn
    cases hwn
    unfold revName
    rw [hlook, joinNames_one]
    rfl
  · intro rm e h
    unfold revName
    rw [h]
    rfl

/-- Witness for C7, both parts: the repository's own test vector
golang.org → 74.125.28.141, and the unknown address 1.2.3.4 rendering
as "1.2.3.4". -/
theorem C7_witness :
    revName (mapInsert (mkIPEndpoint [74, 125, 28, 141]) "golang.org" newReverseDNSMap)
        (mkIPEndpoint [74, 125, 28, 141]) =
      String.mk ((("golang.org".toList.map Char.toNat)).map Char.ofNat) ∧
    revName newReverseDNSMap (mkIPEndpoint [1, 2, 3, 4]) =
      endpointString (mkIPEndpoint [1, 2, 3, 4]) := by
  constructor
  · exact C7_a_record_learning.1
      [⟨"golang.org".toList.map Char.toNat, DNSType.A, DNSClass.IN, [74, 125, 28, 141], []⟩]
      newReverseDNSMap
      (mapInsert (mkIPEndpoint [74, 125, 28, 141]) "golang.org" newReverseDNSMap)
      ⟨"golang.org".toList.map Char.toNat, DNSType.A, DNSClass.IN, [74, 125, 28, 141], []⟩
      [74, 125, 28, 141] ("golang.org".toList.map Char.toNat)
      (by simp) rfl (Or.inl rfl) rfl rfl
      (by intro r hr _ _; rw [List.mem_singleton.1 hr])
      (by intro c hc _ hty; rw [List.mem_singleton.1 hc] at hty; cases hty)
      (by decide)
  · exact C7_a_record_learning.2 newReverseDNSMap (mkIPEndpoint [1, 2, 3, 4]) rfl

/-- Witness for C6 at the concrete address 10.0.0.1 with no operator
range. -/
theorem C6_witness :
    validIP [10, 0, 0, 1] ∧
    (IsLocal none [10, 0, 0, 1] = true ↔ isLocalSpec none [10, 0, 0, 1]) :=
  ⟨by unfold validIP; decide, C6_isLocal_iff_spec none [10, 0, 0, 1] (by unfold validIP; decide)⟩

/-! ## Buffer-ring lifecycle (C9) -/

/-- C9. From an empty ring, any interleaving of acquires and releases
keeps every ring-resident buffer empty and the ring within its
100-buffer capacity, every acquired buffer has length 0, and an acquire
against an empty ring allocates a fresh buffer of length 0 with the
configured capacity. -/
theorem C9_buffer_ring_invariants (bufferSize : Nat) (ops : List PoolOp) :
    (∀ b ∈ (runPool bufferSize ops []).2, b.data = []) ∧
    (∀ b ∈ (runPool bufferSize ops []).1, b.data = []) ∧
    (runPool bufferSize ops []).1.length ≤ maxBuffers ∧
    nextBuffer bufferSize [] = (⟨[], bufferSize⟩, []) := by
  suffices h : ∀ (l : List PoolOp) (ring : BufferRing),
      (∀ b ∈ ring, b.data = []) → ring.length ≤ maxBuffers →
      (∀ b ∈ (runPool bufferSize l ring).2, b.data = []) ∧
      (∀ b ∈ (runPool bufferSize l ring).1, b.data = []) ∧
      (runPool bufferSize l ring).1.length ≤ maxBuffers by
    obtain ⟨h1, h2, h3⟩ := h ops [] (by simp) (by simp [maxBuffers])
    exact ⟨h1, h2, h3, rfl⟩
  intro l
  induction l with
  | nil =>
      intro ring hring hlen
      refine ⟨by simp [runPool], ?_, ?_⟩
      · simpa [runPool] using hring
      · simpa [runPool] using hlen
  | cons op rest ih =>
      intro ring hring hlen
      rcases op with _ | b
      · rcases ring with _ | ⟨b0, ring'⟩
        · have := ih [] (by simp) (by simp [maxBuffers])
          simp only [runPool, nextBuffer] at *
          refine ⟨?_, this.2.1, this.2.2⟩
          intro b hb
          rcases List.mem_cons.1 hb with rfl | hb'
          · rfl
          · exact this.1 b hb'
        · have hb0 : b0.data = [] := hring b0 (by simp)
          have := ih ring' (fun b hb => hring b (by simp [hb])) (by simp at hlen; omega)
          simp only [runPool, nextBuffer] at *
          refine ⟨?_, this.2.1, this.2.2⟩
          intro b hb
          rcases List.mem_cons.1 hb with rfl | hb'
          · exact hb0
          · exact this.1 b hb'
      · simp only [runPool]
        apply ih
        · intro x hx
          unfold releaseBuffer at hx
          split_ifs at hx with hfull
          · rcases List.mem_append.1 hx with hx' | hx'
            · exact hring x hx'
            · rw [List.mem_singleton.1 hx']
          · exact hring x hx
        · unfold releaseBuffer
          split_ifs with hfull
          · simp only [List.length_append, List.length_singleton]
            simp only [maxBuffers] at *
            omega
          · exact hlen

/-- Witness for C9: acquire, release a dirty 3-record buffer, acquire
again; both acquired buffers are empty and the final ring is empty. -/
theorem C9_witness :
    ((⟨[], 5⟩ : Buf) ∈ (runPool 5 [PoolOp.acquire] []).2 ∧
      (⟨[], 5⟩ : Buf).data = []) ∧
    nextBuffer 5 [] = (⟨[], 5⟩, []) :=
  ⟨⟨by simp [runPool, nextBuffer], (C9_buffer_ring_invariants 5 [PoolOp.acquire]).1
      ⟨[], 5⟩ (by simp [runPool, nextBuffer])⟩,
   (C9_buffer_ring_invariants 5 [PoolOp.acquire]).2.2.2⟩

/-! ## Sink writer retry discipline (C8) -/

/-- Full characterization of the retry loop: at most `fuel` attempts;
the k-th backoff wait is the doubled base plus that round's jitter; the
loop stops at the first HTTP response, logging its status. -/
theorem writeAttempts_spec (net : Nat → PostResult) (jit : Nat → Nat) :
    ∀ (fuel i base : Nat),
      (writeAttempts net jit fuel i base).attempts ≤ fuel ∧
      (∀ k, k < (writeAttempts net jit fuel i base).waits.length →
        (writeAttempts net jit fuel i base).waits.getD k 0 = base * 2 ^ k + jit (i + k)) ∧
      (∀ k s, k < fuel → net (i + k) = PostResult.response s →
        (∀ j, j < k → net (i + j) = PostResult.transportError) →
        (writeAttempts net jit fuel i base).attempts = k + 1 ∧
        (writeAttempts net jit fuel i base).logged = some s) := by
  intro fuel
  induction fuel with
  | zero =>
      intro i base
      refine ⟨Nat.le_refl 0, ?_, ?_⟩
      · intro k hk
        simp [writeAttempts] at hk
      · intro k s hk
        cases hk
  | succ f ih =>
      intro i base
      rcases hnet : net i with _ | s0
      · have hstep : writeAttempts net jit (f + 1) i base =
            ⟨(writeAttempts net jit f (i + 1) (base * 2)).attempts + 1,
             (base + jit i) :: (writeAttempts net jit f (i + 1) (base * 2)).waits,
             (writeAttempts net jit f (i + 1) (base * 2)).logged⟩ := by
          conv_lhs => rw [writeAttempts.eq_def]
          simp only [hnet]
        obtain ⟨ih1, ih2, ih3⟩ := ih (i + 1) (base * 2)
        rw [hstep]
        refine ⟨by simpa using Nat.succ_le_succ ih1, ?_, ?_⟩
        · intro k hk
          cases k with
          | zero => simp
          | succ k' =>
              simp only [List.length_cons] at hk
              have := ih2 k' (by omega)
              simp only [List.getD_cons_succ]
              rw [this]
              have h2p : base * 2 * 2 ^ k' = base * 2 ^ (k' + 1) := by ring
              have hi : i + 1 + k' = i + (k' + 1) := by omega
              rw [h2p, hi]
        · intro k s hk hr hp
          cases k with
          | zero =>
              rw [Nat.add_zero] at hr
              rw [hnet] at hr
              cases hr
          | succ k' =>
              have hr' : net (i + 1 + k') = PostResult.response s := by
                have : i + 1 + k' = i + (k' + 1) := by omega
                rw [this]
                exact hr
              have hp' : ∀ j, j < k' → net (i + 1 + j) = PostResult.transportError := by
                intro j hj
                have : i + 1 + j = i + (j + 1) := by omega
                rw [this]
                exact hp (j + 1) (by omega)
              obtain ⟨ha, hl⟩ := ih3 k' s (by omega) hr' hp'
              constructor
              · simp [ha]
              · simpa using hl
      · have hstep : writeAttempts net jit (f + 1) i base = ⟨1, [], some s0⟩ := by
          conv_lhs => rw [writeAttempts.eq_def]
          simp only [hnet]
        rw [hstep]
        refine ⟨by show 1 ≤ f + 1; omega, ?_, ?_⟩
        · intro k hk
          simp at hk
        · intro k s hk hr hp
          cases k with
          | zero =>
              rw [Nat.add_zero, hnet] at hr
              cases hr
              exact ⟨rfl, rfl⟩
          | succ k' =>
              have := hp 0 (by omega)
              rw [Nat.add_zero, hnet] at this
              cases this

/-- C8. For a non-empty batch: at most 5 POST attempts; after the k-th
transport error the writer waits `100ms·2^k + jitter_k` nanoseconds,
which lies in `[100ms·2^k, 100ms·2^(k+1))` since the jitter is drawn
from `[0, waitBase)`; and at the first attempt that yields any HTTP
response the writer logs the status and stops — the batch is never
resubmitted. -/
theorem C8_sink_retry_policy (net : Nat → PostResult) (jit : Nat → Nat)
    (data : List Metadata) (hne : data ≠ [])
    (hjit : ∀ i, jit i < waitBase0 * 2 ^ i) :
    (writePackets net jit data).attempts ≤ influxRetryLimit ∧
    (∀ k, k < (writePackets net jit data).waits.length →
      (writePackets net jit data).waits.getD k 0 = waitBase0 * 2 ^ k + jit k ∧
      waitBase0 * 2 ^ k ≤ (writePackets net jit data).waits.getD k 0 ∧
      (writePackets net jit data).waits.getD k 0 < waitBase0 * 2 ^ (k + 1)) ∧
    (∀ k s, k < influxRetryLimit → net k = PostResult.response s →
      (∀ j, j < k → net j = PostResult.transportError) →
      (writePackets net jit data).attempts = k + 1 ∧
      (writePackets net jit data).logged = some s) := by
  have hd : ¬(data.length = 0) := by
    intro h
    exact hne (List.length_eq_zero.1 h)
  unfold writePackets
  rw [if_neg hd]
  obtain ⟨h1, h2, h3⟩ := writeAttempts_spec net jit influxRetryLimit 0 waitBase0
  refine ⟨h1, ?_, ?_⟩
  · intro k hk
    have heq := h2 k hk
    rw [Nat.zero_add] at heq
    refine ⟨heq, by rw [heq]; omega, ?_⟩
    rw [heq]
    have hp2 : waitBase0 * 2 ^ (k + 1) = 2 * (waitBase0 * 2 ^ k) := by ring
    have hj := hjit k
    omega
  · intro k s hk hr hp
    have := h3 k s hk (by rw [Nat.zero_add]; exact hr)
      (fun j hj => by rw [Nat.zero_add]; exact hp j hj)
    exact this

/-- Witness for C8: two transport errors then a 204 response, zero
jitter, a one-record batch — exactly three attempts, status 204
logged. -/
theorem C8_witness :
    (([{ emptyMetadata with size := 1 }] : List Metadata) ≠ []) ∧
    (writePackets (fun i => if i < 2 then PostResult.transportError else PostResult.response 204)
        (fun _ => 0) [{ emptyMetadata with size := 1 }]).attempts = 2 + 1 ∧
    (writePackets (fun i => if i < 2 then PostResult.transportError else PostResult.response 204)
        (fun _ => 0) [{ emptyMetadata with size := 1 }]).logged = some 204 := by
  refine ⟨by simp, ?_⟩
  exact (C8_sink_retry_policy
      (fun i => if i < 2 then PostResult.transportError else PostResult.response 204)
      (fun _ => 0) [{ emptyMetadata with size := 1 }]
      (by simp) (fun i => by unfold waitBase0; positivity)).2.2 2 204
    (by norm_num [influxRetryLimit]) (by norm_num)
    (fun j hj => by interval_cases j <;> rfl)

/-! ## Decode-order of name resolution versus DNS learning (C1) -/

/-- C1 is falsified by the code: `DecodeLayers` reports layers in wire
order (Ethernet, IP, UDP, DNS), and the processor's switch resolves
names at the IP-layer case — before reaching the DNS case. On the very
frame that carries the answer golang.org → 74.125.28.141, the emitted
record's source name is the formatted address, not "golang.org", even
though the map holds the binding right after the frame. -/
theorem C1_counterexample_names_before_add :
    processPacket newReverseDNSMap 0 80
        [Layer.eth, Layer.ipv4 [74, 125, 28, 141] [10, 0, 0, 1], Layer.udp 53 52000,
         Layer.dns [⟨"golang.org".toList.map Char.toNat, DNSType.A, DNSClass.IN,
           [74, 125, 28, 141], []⟩]] =
      some ({ timestamp := 0, size := 80, srcName := "74.125.28.141",
              dstName := "10.0.0.1", srcIP := [74, 125, 28, 141], dstIP := [10, 0, 0, 1],
              srcPort := 53, dstPort := 52000, v6 := false },
            [(⟨EPType.v4, [74, 125, 28, 141]⟩, "golang.org")]) ∧
    ("74.125.28.141" : String) ≠ "golang.org" ∧
    mapLookup (⟨EPType.v4, [74, 125, 28, 141]⟩ : Endpoint)
        [((⟨EPType.v4, [74, 125, 28, 141]⟩ : Endpoint), "golang.org")] =
      some "golang.org" := by
  refine ⟨?_, by decide, by decide⟩
  rfl

/-- C1, amended to the code: for a frame whose decoded layers arrive in
wire order (IP before DNS), the processor resolves the source and
destination names from the map as it stood BEFORE the frame's DNS
answer was added; the answer's bindings become visible only to later
frames. -/
theorem C1_amended_names_resolved_before_add (rm : RevMap) (ts sz : Nat) (s d : IP)
    (sp dp : Nat) (answers : List DNSRecord) (rm' : RevMap)
    (hadd : revAdd answers rm = some rm') :
    processPacket rm ts sz [Layer.eth, Layer.ipv4 s d, Layer.udp sp dp, Layer.dns answers] =
      some ({ timestamp := ts, size := sz,
              srcName := revName rm (flowEndpoint EPType.v4 s),
              dstName := revName rm (flowEndpoint EPType.v4 d),
              srcIP := s, dstIP := d, srcPort := sp, dstPort := dp, v6 := false }, rm') := by
  unfold processPacket
  simp [List.foldlM, processLayer, revNames, hadd, emptyMetadata]

/-- Witness for C1's amended statement at the golang.org frame. -/
theorem C1_witness :
    revAdd [⟨"golang.org".toList.map Char.toNat, DNSType.A, DNSClass.IN,
        [74, 125, 28, 141], []⟩] newReverseDNSMap =
      some [(⟨EPType.v4, [74, 125, 28, 141]⟩, "golang.org")] ∧
    processPacket newReverseDNSMap 0 80
        [Layer.eth, Layer.ipv4 [74, 125, 28, 141] [10, 0, 0, 1], Layer.udp 53 52000,
         Layer.dns [⟨"golang.org".toList.map Char.toNat, DNSType.A, DNSClass.IN,
           [74, 125, 28, 141], []⟩]] =
      some ({ timestamp := 0, size := 80,
              srcName := revName newReverseDNSMap (flowEndpoint EPType.v4 [74, 125, 28, 141]),
              dstName := revName newReverseDNSMap (flowEndpoint EPType.v4 [10, 0, 0, 1]),
              srcIP := [74, 125, 28, 141], dstIP := [10, 0, 0, 1],
              srcPort := 53, dstPort := 52000, v6 := false },
            [(⟨EPType.v4, [74, 125, 28, 141]⟩, "golang.org")]) := by
  constructor
  · rfl
  · exact C1_amended_names_resolved_before_add newReverseDNSMap 0 80
      [74, 125, 28, 141] [10, 0, 0, 1] 53 52000
      [⟨"golang.org".toList.map Char.toNat, DNSType.A, DNSClass.IN, [74, 125, 28, 141], []⟩]
      [(⟨EPType.v4, [74, 125, 28, 141]⟩, "golang.org")] rfl

end Caplog
